import Mathlib

/-!
Shallow embedding of the price-calculator storage layer
(src/utils/storage.ts, src/types/index.ts) and of the undo hook
(src/hooks/useUndo.ts).  AsyncStorage is modelled as a record of the three
persisted documents; every storage function becomes a pure function that
threads the store state explicitly.
-/

namespace PriceCalc

/-- The runtime shape of an item (src/types/index.ts, interface Item).
The TS `Category` union is a compile-time restriction only; at runtime the
field is a plain string, so it is modelled as `String`. -/
structure Item where
  id : String
  name : String
  pricePerKg : ℚ
  isFavorite : Bool
  category : String
  lastUsed : Option Nat
  deriving DecidableEq

/-- The recognised members of the TS `Category` union (src/types/index.ts). -/
def validCategory (c : String) : Bool :=
  c = "groceries" ∨ c = "vegetables" ∨ c = "fruits" ∨ c = "dairy" ∨
  c = "meat" ∨ c = "spices" ∨ c = "beverages" ∨ c = "other"

/-- A raw stored record as read back from AsyncStorage: the fields added in
later versions of the app may be absent (`none` models a missing/null
JSON field, which is exactly what `??` tests for). -/
structure RawItem where
  id : String
  name : String
  pricePerKg : ℚ
  isFavorite : Option Bool
  category : Option String
  lastUsed : Option Nat
  deriving DecidableEq

/-- storage.ts `migrateItem`: `isFavorite ?? false`, `category ?? 'other'`,
`lastUsed ?? undefined`. -/
def migrateItem (item : RawItem) : Item :=
  { id := item.id
    name := item.name
    pricePerKg := item.pricePerKg
    isFavorite := item.isFavorite.getD false
    category := item.category.getD "other"
    lastUsed := item.lastUsed }

/-- Serialising a current-shape item back into a stored record
(JSON.stringify of an `Item`): every present field is kept, an
`undefined` `lastUsed` is simply absent. -/
def itemToRaw (item : Item) : RawItem :=
  { id := item.id
    name := item.name
    pricePerKg := item.pricePerKg
    isFavorite := some item.isFavorite
    category := some item.category
    lastUsed := item.lastUsed }

/-- A calculation history entry (src/types/index.ts, interface Calculation). -/
structure Calculation where
  id : String
  itemId : String
  itemName : String
  mode : String
  input : ℚ
  result : ℚ
  perKgPrice : ℚ
  timestamp : Nat
  deriving DecidableEq

/-- The argument of `saveCalculation`: a Calculation without `id` and
`timestamp` (Omit Calculation id timestamp). -/
structure CalculationInput where
  itemId : String
  itemName : String
  mode : String
  input : ℚ
  result : ℚ
  perKgPrice : ℚ
  deriving DecidableEq

/-- AsyncStorage restricted to the three keys the app uses.  `none` means
the key has never been written. -/
structure Store where
  itemsDoc : Option (List RawItem)
  calcsDoc : Option (List Calculation)
  recentDoc : Option (List String)
  deriving DecidableEq

/-- A store in which no document has ever been persisted. -/
def emptyStore : Store := ⟨none, none, none⟩

/-- The fixed default catalog seeded by `getItems` on first read. -/
def defaultItems : List Item :=
  [ { id := "1", name := "Rice", pricePerKg := 75.50, isFavorite := true,
      category := "groceries", lastUsed := none },
    { id := "2", name := "Wheat Flour", pricePerKg := 45.80, isFavorite := false,
      category := "groceries", lastUsed := none },
    { id := "3", name := "Sugar", pricePerKg := 55.20, isFavorite := true,
      category := "groceries", lastUsed := none },
    { id := "4", name := "Onions", pricePerKg := 35.00, isFavorite := false,
      category := "vegetables", lastUsed := none },
    { id := "5", name := "Tomatoes", pricePerKg := 40.00, isFavorite := false,
      category := "vegetables", lastUsed := none },
    { id := "6", name := "Potatoes", pricePerKg := 25.00, isFavorite := false,
      category := "vegetables", lastUsed := none } ]

/-- storage.ts `saveItems`: persists the full collection under the items key. -/
def saveItems (items : List Item) (s : Store) : Store :=
  { s with itemsDoc := some (items.map itemToRaw) }

/-- storage.ts `getItems`: if the items document exists, parse it and migrate
every record; otherwise seed the default catalog, persist it and return it.
Returns the item list together with the store after the call. -/
def getItems (s : Store) : List Item × Store :=
  match s.itemsDoc with
  | some rawItems => (rawItems.map migrateItem, s)
  | none => (defaultItems, saveItems defaultItems s)

/-- A `Partial Item` value: each field may or may not be present in the
update object.  A present field overwrites the item's field on spread. -/
structure ItemUpdates where
  id : Option String := none
  name : Option String := none
  pricePerKg : Option ℚ := none
  isFavorite : Option Bool := none
  category : Option String := none
  lastUsed : Option Nat := none
  deriving DecidableEq

/-- The TS object spread `\x7b ...item, ...updates \x7d`: fields present in
`updates` win, all others are taken from `item`. -/
def mergeItem (item : Item) (updates : ItemUpdates) : Item :=
  { id := updates.id.getD item.id
    name := updates.name.getD item.name
    pricePerKg := updates.pricePerKg.getD item.pricePerKg
    isFavorite := updates.isFavorite.getD item.isFavorite
    category := updates.category.getD item.category
    lastUsed :=
      match updates.lastUsed with
      | some t => some t
      | none => item.lastUsed }

/-- storage.ts `updateItem`: map over the collection, spreading `updates`
into the item whose id matches, then persist the full collection. -/
def updateItem (id : String) (updates : ItemUpdates) (s : Store) : Store :=
  let r := getItems s
  saveItems (r.1.map fun item => if item.id = id then mergeItem item updates else item) r.2

/-- storage.ts `deleteItem`: filter out the item with the given id and
persist.  It touches only the items document. -/
def deleteItem (id : String) (s : Store) : Store :=
  let r := getItems s
  saveItems (r.1.filter fun item => item.id ≠ id) r.2

/-- storage.ts `toggleFavorite`: look the item up and, when found, update
its `isFavorite` flag to its negation. -/
def toggleFavorite (id : String) (s : Store) : Store :=
  let r := getItems s
  match r.1.find? (fun i => i.id = id) with
  | some item => updateItem id { isFavorite := some (!item.isFavorite) } r.2
  | none => r.2

/-- storage.ts `getCalculations`: the stored history, `[]` if absent. -/
def getCalculations (s : Store) : List Calculation :=
  s.calcsDoc.getD []

/-- Stamping a new calculation with `Date.now()`: the id is the stringified
timestamp, as in `saveCalculation`. -/
def stampCalculation (c : CalculationInput) (now : Nat) : Calculation :=
  { id := toString now
    itemId := c.itemId
    itemName := c.itemName
    mode := c.mode
    input := c.input
    result := c.result
    perKgPrice := c.perKgPrice
    timestamp := now }

/-- storage.ts `saveCalculation`: prepend the stamped calculation to
`calculations.slice(0, 49)` and persist. -/
def saveCalculation (c : CalculationInput) (now : Nat) (s : Store) : Store :=
  let calculations := getCalculations s
  let updated := stampCalculation c now :: calculations.take 49
  { s with calcsDoc := some updated }

/-- A sequence of `saveCalculation` calls, each with its own clock reading. -/
def recordAll (calls : List (CalculationInput × Nat)) (s : Store) : Store :=
  calls.foldl (fun st c => saveCalculation c.1 c.2 st) s

/-- storage.ts `MAX_RECENT_ITEMS`. -/
def maxRecentItems : Nat := 5

/-- storage.ts `getRecentItems`: the stored recency id list, `[]` if absent. -/
def getRecentItems (s : Store) : List String :=
  s.recentDoc.getD []

/-- storage.ts `addRecentItem`: remove the id if present, prepend it, cap at
`maxRecentItems`, persist, then stamp the item's `lastUsed` via `updateItem`. -/
def addRecentItem (itemId : String) (now : Nat) (s : Store) : Store :=
  let recentIds := getRecentItems s
  let filtered := recentIds.filter fun id => id ≠ itemId
  let updated := (itemId :: filtered).take maxRecentItems
  let s1 := { s with recentDoc := some updated }
  updateItem itemId { lastUsed := some now } s1

/-- A sequence of recency touches (clock fixed at 0; the recency list does
not depend on the clock). -/
def touchAll (ids : List String) (s : Store) : Store :=
  ids.foldl (fun st i => addRecentItem i 0 st) s

/-- The for-loop of `getRecentItemsWithData`: look each id up in the item
collection, push the item when found, skip the id otherwise. -/
def resolveLoop (allItems : List Item) : List String → List Item
  | [] => []
  | id :: rest =>
    match allItems.find? (fun i => i.id = id) with
    | some item => item :: resolveLoop allItems rest
    | none => resolveLoop allItems rest

/-- storage.ts `getRecentItemsWithData`: read the recency ids, read all
items (possibly seeding), resolve in recency order. -/
def getRecentItemsWithData (s : Store) : List Item × Store :=
  let recentIds := getRecentItems s
  let r := getItems s
  (resolveLoop r.1 recentIds, r.2)

/-- useUndo.ts UndoItem: the staged data with its action and timestamp. -/
structure UndoEntry (T : Type) where
  data : T
  action : String
  timestamp : Nat
  deriving DecidableEq

/-- The undo hook's state: at most one staged entry (`undoItem` state). -/
structure UndoState (T : Type) where
  undoItem : Option (UndoEntry T)
  deriving DecidableEq

/-- useUndo.ts `setForUndo`: unconditionally replaces whatever was staged
with the new entry (the previous timeout is cleared, the previous entry is
dropped). -/
def setForUndo {T : Type} (data : T) (action : String) (now : Nat)
    (_s : UndoState T) : UndoState T :=
  { undoItem := some { data := data, action := action, timestamp := now } }

/-- useUndo.ts `undo`: returns `null` and changes nothing when nothing is
staged; otherwise returns the staged data and empties the state. -/
def undo {T : Type} (s : UndoState T) : Option T × UndoState T :=
  match s.undoItem with
  | none => (none, s)
  | some entry => (some entry.data, { undoItem := none })

/-! ### Helper lemmas -/

/-- Serialising a migrated item and migrating it back is the identity:
`saveItems` then `getItems` round-trips. -/
theorem migrateItem_itemToRaw (it : Item) : migrateItem (itemToRaw it) = it := rfl

/-- Reading right after `saveItems` returns exactly the saved collection. -/
theorem getItems_saveItems (l : List Item) (s : Store) :
    getItems (saveItems l s) = (l, saveItems l s) := by
  simp [getItems, saveItems, migrateItem_itemToRaw, List.map_map, Function.comp_def]

/-- `getItems` is idempotent on the store it returns. -/
theorem getItems_getItems (s : Store) : getItems ((getItems s).2) = getItems s := by
  unfold getItems
  cases h : s.itemsDoc with
  | some doc => simp [h]
  | none => simpa [h] using getItems_saveItems defaultItems s

/-- `saveItems` does not touch the recency document. -/
theorem recentDoc_saveItems (l : List Item) (s : Store) :
    (saveItems l s).recentDoc = s.recentDoc := rfl

/-- `getItems` never modifies the recency document. -/
theorem recentDoc_getItems (s : Store) : (getItems s).2.recentDoc = s.recentDoc := by
  unfold getItems
  cases h : s.itemsDoc <;> simp [h, saveItems]

/-- `updateItem` never modifies the recency document. -/
theorem recentDoc_updateItem (id : String) (u : ItemUpdates) (s : Store) :
    (updateItem id u s).recentDoc = s.recentDoc := by
  unfold updateItem
  simp [recentDoc_saveItems, recentDoc_getItems]

/-- The item list `getItems` returns does not depend on the recency document. -/
theorem getItems_fst_set_recent (s : Store) (r : Option (List String)) :
    (getItems { s with recentDoc := r }).1 = (getItems s).1 := by
  unfold getItems
  cases h : s.itemsDoc <;> simp [h]

/-- The item collection read back after an `updateItem` call is the map of
the spread over the old collection. -/
theorem getItems_updateItem (id : String) (u : ItemUpdates) (s : Store) :
    (getItems (updateItem id u s)).1
      = (getItems s).1.map fun it => if it.id = id then mergeItem it u else it := by
  unfold updateItem
  simp [getItems_saveItems]

/-- The recency list read back after `addRecentItem`: the touched id in
front of the filtered old list, capped at `maxRecentItems`. -/
theorem getRecentItems_addRecentItem (itemId : String) (now : Nat) (s : Store) :
    getRecentItems (addRecentItem itemId now s)
      = (itemId :: (getRecentItems s).filter fun id => id ≠ itemId).take maxRecentItems := by
  unfold addRecentItem getRecentItems
  simp [recentDoc_updateItem]

/-- Filtering away an element that is not in the list changes nothing. -/
theorem filter_ne_of_not_mem {l : List String} {a : String} (h : a ∉ l) :
    (l.filter fun x => x ≠ a) = l := by
  induction l with
  | nil => rfl
  | cons b bs ih =>
    simp only [List.mem_cons, not_or] at h
    have hba : b ≠ a := fun hba => h.1 hba.symm
    rw [List.filter_cons, if_pos (decide_eq_true hba), ih h.2]

/-- The filtered-away element is gone. -/
theorem not_mem_filter_ne (l : List String) (a : String) :
    a ∉ l.filter fun x => x ≠ a := by
  intro hmem
  have := List.of_mem_filter hmem
  simp at this

/-- On a duplicate-free list, filtering away one present element drops
exactly one entry. -/
theorem length_filter_ne_of_mem {l : List String} {a : String}
    (hd : l.Nodup) (hm : a ∈ l) :
    (l.filter fun x => x ≠ a).length = l.length - 1 := by
  induction l with
  | nil => cases hm
  | cons b bs ih =>
    rcases List.mem_cons.mp hm with hba | hmem
    · have hnb : b ∉ bs := (List.nodup_cons.mp hd).1
      subst hba
      rw [List.filter_cons, if_neg (by simp), filter_ne_of_not_mem hnb]
      simp
    · have hab : b ≠ a := fun h => (List.nodup_cons.mp hd).1 (h ▸ hmem)
      have hlen := ih (List.nodup_cons.mp hd).2 hmem
      have hpos : 1 ≤ bs.length := List.length_pos.mpr (List.ne_nil_of_mem hmem)
      rw [List.filter_cons, if_pos (decide_eq_true hab), List.length_cons, hlen,
        List.length_cons]
      omega

/-- Taking a prefix of a capped list is taking the prefix of the uncapped
list, as long as the cap is no smaller. -/
theorem take_append_take (A B : List Calculation) {n k : Nat} (h : n ≤ k) :
    (A ++ B.take k).take n = (A ++ B).take n := by
  induction A generalizing n with
  | nil => simp [List.take_take, Nat.min_eq_left h]
  | cons a A ih =>
    cases n with
    | zero => simp
    | succ m =>
      simp only [List.cons_append, List.take_succ_cons]
      rw [ih (Nat.le_trans (Nat.le_succ m) h)]

/-- Same capping lemma for the recency id lists. -/
theorem take_append_take_str (A B : List String) {n k : Nat} (h : n ≤ k) :
    (A ++ B.take k).take n = (A ++ B).take n := by
  induction A generalizing n with
  | nil => simp [List.take_take, Nat.min_eq_left h]
  | cons a A ih =>
    cases n with
    | zero => simp
    | succ m =>
      simp only [List.cons_append, List.take_succ_cons]
      rw [ih (Nat.le_trans (Nat.le_succ m) h)]

/-! ### Concrete fixtures used by witnesses and counterexamples -/

/-- A store holding one item with id "1" that is also in the recency list. -/
def bugStore : Store where
  itemsDoc := some [{ id := "1", name := "Rice", pricePerKg := 75.5, isFavorite := some true, category := some "groceries", lastUsed := none }]
  calcsDoc := none
  recentDoc := some ["1"]

/-- A raw record whose category string is not a member of the `Category`
union. -/
def oddRawItem : RawItem :=
  { id := "7", name := "Candy", pricePerKg := 10, isFavorite := none, category := some "candy", lastUsed := none }

/-- A raw record with every optional field missing. -/
def plainRawItem : RawItem :=
  { id := "9", name := "Tea", pricePerKg := 5, isFavorite := none, category := none, lastUsed := none }

/-- A one-item store used to exercise `updateItem`. -/
def sampleStore : Store where
  itemsDoc := some [{ id := "1", name := "Rice", pricePerKg := 75.5, isFavorite := some true, category := some "groceries", lastUsed := none }]
  calcsDoc := none
  recentDoc := none

/-- A partial update carrying only a new price. -/
def samplePatch : ItemUpdates := { pricePerKg := some 80 }

/-- A partial update that (legally, per the TS types) carries a new id. -/
def idPatch : ItemUpdates := { id := some "99" }

/-! ### Claims -/

/-- Claim C1: the spec says `delete(id)` must also remove the id from the
recency list.  The code does not: `deleteItem` filters only the items
document and never touches the recency document, so right after deleting
item "1" the store still resolves a recency list containing "1".  (The
caller in app/_layout.tsx even comments that `deleteItem` "handles both
items and usage data".)  This theorem evaluates the code at the failing
input: the item is gone from the collection, yet the recency list still
holds its id. -/
theorem deleteItem_recency_c1 :
    ((getItems (deleteItem "1" bugStore)).1.map Item.id) = [] ∧
    getRecentItems bugStore = ["1"] ∧
    getRecentItems (deleteItem "1" bugStore) = ["1"] :=
  ⟨rfl, rfl, rfl⟩

/-- Claim C2 (counterexample): migration does not map an *unrecognized*
category to "other" — `category ?? 'other'` only replaces a missing value.
A stored record with category "candy" (not in the union) migrates to an
item whose category is still "candy". -/
theorem migrateItem_c2_counterexample :
    validCategory "candy" = false ∧
    (migrateItem oddRawItem).category = "candy" ∧
    (migrateItem oddRawItem).category ≠ "other" := by
  refine ⟨by decide, rfl, by decide⟩

/-- Claim C2 (amended): migration keeps the id; a missing `isFavorite`
becomes `false` and a present one is kept; a missing `category` becomes
"other" while a present category string — recognized or not — passes
through unchanged; `lastUsed` is carried over as-is, so a missing
`lastUsed` stays absent rather than becoming zero. -/
theorem migrateItem_defaults_c2 (r : RawItem) :
    (migrateItem r).id = r.id ∧
    (r.isFavorite = none → (migrateItem r).isFavorite = false) ∧
    (∀ b, r.isFavorite = some b → (migrateItem r).isFavorite = b) ∧
    (r.category = none → (migrateItem r).category = "other") ∧
    (∀ c, r.category = some c → (migrateItem r).category = c) ∧
    (migrateItem r).lastUsed = r.lastUsed ∧
    (r.lastUsed = none → (migrateItem r).lastUsed = none) := by
  refine ⟨rfl, fun h => ?_, fun b hb => ?_, fun h => ?_, fun c hc => ?_, rfl, fun h => ?_⟩ <;>
    simp [migrateItem, *]

/-- Claim C2 witness: a record with all optional fields missing migrates to
not-favorite, category "other", absent `lastUsed`. -/
theorem migrateItem_defaults_c2_witness :
    (migrateItem plainRawItem).isFavorite = false ∧
    (migrateItem plainRawItem).category = "other" ∧
    (migrateItem plainRawItem).lastUsed = none :=
  ⟨(migrateItem_defaults_c2 plainRawItem).2.1 rfl,
   (migrateItem_defaults_c2 plainRawItem).2.2.2.1 rfl,
   (migrateItem_defaults_c2 plainRawItem).2.2.2.2.2.2 rfl⟩

/-- Claim C3: with no persisted items document, `getItems` returns the
6-item default catalog and persists it; a second read returns the same
thing without re-seeding; and whenever a document exists — even an empty
one — `getItems` returns exactly its migrated contents and leaves the
store untouched. -/
theorem getItems_seed_c3 (s : Store) (h : s.itemsDoc = none) :
    (getItems s).1 = defaultItems ∧
    defaultItems.length = 6 ∧
    (getItems s).2.itemsDoc = some (defaultItems.map itemToRaw) ∧
    getItems ((getItems s).2) = getItems s ∧
    (∀ (s2 : Store) (doc : List RawItem), s2.itemsDoc = some doc →
      (getItems s2).1 = doc.map migrateItem ∧ (getItems s2).2 = s2) := by
  have h1 : getItems s = (defaultItems, saveItems defaultItems s) := by
    unfold getItems; rw [h]
  refine ⟨by rw [h1], rfl, by rw [h1]; rfl, getItems_getItems s, ?_⟩
  intro s2 doc h2
  constructor <;> unfold getItems <;> rw [h2]

/-- Claim C3 witness: seeding and idempotence on the empty store. -/
theorem getItems_seed_c3_witness :
    (getItems emptyStore).1 = defaultItems ∧
    getItems ((getItems emptyStore).2) = getItems emptyStore :=
  ⟨(getItems_seed_c3 emptyStore rfl).1, (getItems_seed_c3 emptyStore rfl).2.2.2.1⟩

/-- Claim C6: staging a value and undoing returns exactly that value and
empties the state; undoing with nothing staged returns nothing and changes
nothing (a no-op, not an error). -/
theorem undo_roundtrip_c6 {T : Type} (x : T) (action : String) (now : Nat)
    (st : UndoState T) :
    undo (setForUndo x action now st) = (some x, { undoItem := none }) ∧
    (∀ st2 : UndoState T, st2.undoItem = none → undo st2 = (none, st2)) := by
  constructor
  · rfl
  · intro st2 h2
    unfold undo
    rw [h2]

/-- Claim C6 witness: round-trip and empty-undo at concrete values. -/
theorem undo_roundtrip_c6_witness :
    undo (setForUndo 3 "deleted" 0 (⟨none⟩ : UndoState Nat)) = (some 3, ⟨none⟩) ∧
    undo (⟨none⟩ : UndoState Nat) = (none, ⟨none⟩) :=
  ⟨(undo_roundtrip_c6 3 "deleted" 0 ⟨none⟩).1,
   (undo_roundtrip_c6 3 "deleted" 0 ⟨none⟩).2 ⟨none⟩ rfl⟩

/-- Claim C7: the undo controller holds at most one pending entry.
Staging y after x leaves exactly y staged, undo then yields y, and the
state after the second staging does not depend on x (or on anything staged
before) at all: x is unrecoverable. -/
theorem setForUndo_single_slot_c7 {T : Type} (x y : T) (a1 a2 : String)
    (t1 t2 : Nat) (st : UndoState T) :
    (setForUndo y a2 t2 (setForUndo x a1 t1 st)).undoItem
        = some { data := y, action := a2, timestamp := t2 } ∧
    undo (setForUndo y a2 t2 (setForUndo x a1 t1 st)) = (some y, { undoItem := none }) ∧
    (∀ st2 : UndoState T, setForUndo y a2 t2 (setForUndo x a1 t1 st) = setForUndo y a2 t2 st2) :=
  ⟨rfl, rfl, fun _ => rfl⟩

/-- Claim C8: `updateItem` maps the collection, spreading the update into
the matching item only; fields absent from the update are unchanged; items
with a different id are untouched; and when no item matches, the collection
read back is unchanged. -/
theorem updateItem_frame_c8 (s : Store) (id : String) (u : ItemUpdates) :
    ((getItems (updateItem id u s)).1
        = (getItems s).1.map fun it => if it.id = id then mergeItem it u else it) ∧
    (∀ it : Item,
      (u.id = none → (mergeItem it u).id = it.id) ∧
      (u.name = none → (mergeItem it u).name = it.name) ∧
      (u.pricePerKg = none → (mergeItem it u).pricePerKg = it.pricePerKg) ∧
      (u.isFavorite = none → (mergeItem it u).isFavorite = it.isFavorite) ∧
      (u.category = none → (mergeItem it u).category = it.category) ∧
      (u.lastUsed = none → (mergeItem it u).lastUsed = it.lastUsed)) ∧
    ((∀ it ∈ (getItems s).1, it.id ≠ id) → (getItems (updateItem id u s)).1 = (getItems s).1) := by
  refine ⟨getItems_updateItem id u s, ?_, ?_⟩
  · intro it
    refine ⟨fun h => ?_, fun h => ?_, fun h => ?_, fun h => ?_, fun h => ?_, fun h => ?_⟩ <;>
      simp [mergeItem, h]
  · intro hall
    rw [getItems_updateItem]
    conv_rhs => rw [← List.map_id ((getItems s).1)]
    exact List.map_congr_left fun a ha => by simp [hall a ha]

/-- Claim C8 witness: a price-only update on a concrete store, and a
no-op update with an id nobody has. -/
theorem updateItem_frame_c8_witness :
    ((getItems (updateItem "1" samplePatch sampleStore)).1
        = (getItems sampleStore).1.map fun it =>
            if it.id = "1" then mergeItem it samplePatch else it) ∧
    (getItems (updateItem "zz" samplePatch sampleStore)).1 = (getItems sampleStore).1 :=
  ⟨(updateItem_frame_c8 sampleStore "1" samplePatch).1,
   (updateItem_frame_c8 sampleStore "zz" samplePatch).2.2 (by decide)⟩

/-! ### History cap (C4) -/

/-- One `saveCalculation` step: prepend the stamped entry, keep 49 old ones. -/
theorem getCalculations_saveCalculation (c : CalculationInput) (now : Nat) (s : Store) :
    getCalculations (saveCalculation c now s)
      = stampCalculation c now :: (getCalculations s).take 49 := rfl

/-- Unfolding one step of `recordAll`. -/
theorem recordAll_cons (c : CalculationInput × Nat) (calls : List (CalculationInput × Nat))
    (s : Store) :
    recordAll (c :: calls) s = recordAll calls (saveCalculation c.1 c.2 s) := rfl

/-- The stored history after a sequence of records is the reversed stamp
list in front of the initial history, capped at 50. -/
theorem recordAll_calcs (calls : List (CalculationInput × Nat)) :
    ∀ s : Store, (getCalculations s).length ≤ 50 →
      getCalculations (recordAll calls s)
        = ((calls.map fun c => stampCalculation c.1 c.2).reverse ++ getCalculations s).take 50 := by
  induction calls with
  | nil =>
    intro s hs
    simp [recordAll, List.take_of_length_le hs]
  | cons c calls ih =>
    intro s hs
    rw [recordAll_cons]
    have hstep := getCalculations_saveCalculation c.1 c.2 s
    have hlen : (getCalculations (saveCalculation c.1 c.2 s)).length ≤ 50 := by
      rw [hstep]
      simp only [List.length_cons, List.length_take]
      omega
    rw [ih _ hlen, hstep]
    have h1 : stampCalculation c.1 c.2 :: (getCalculations s).take 49
        = (stampCalculation c.1 c.2 :: getCalculations s).take 50 := by
      rw [List.take_succ_cons]
    rw [h1, take_append_take _ _ (le_refl 50)]
    simp [List.append_assoc]

/-- Claim C4: `saveCalculation` prepends the stamped calculation and keeps
only the 50 most recent entries.  Recording 51 calculations onto an empty
history leaves exactly 50, newest first, with the very first (oldest)
record evicted: the final history is precisely the last 50 stamps in
reverse recording order. -/
theorem saveCalculation_cap_c4 (calls : List (CalculationInput × Nat)) (s : Store)
    (hlen : calls.length = 51) (hempty : getCalculations s = []) :
    (∀ (c : CalculationInput) (now : Nat) (s2 : Store),
      getCalculations (saveCalculation c now s2)
        = stampCalculation c now :: (getCalculations s2).take 49) ∧
    getCalculations (recordAll calls s)
      = ((calls.drop 1).map fun c => stampCalculation c.1 c.2).reverse ∧
    (getCalculations (recordAll calls s)).length = 50 := by
  have hbase : (getCalculations s).length ≤ 50 := by rw [hempty]; simp
  have hmain := recordAll_calcs calls s hbase
  rw [hempty] at hmain
  simp only [List.append_nil] at hmain
  obtain ⟨c, rest, rfl⟩ : ∃ c rest, calls = c :: rest := by
    cases calls with
    | nil => simp at hlen
    | cons c rest => exact ⟨c, rest, rfl⟩
  have hrest : rest.length = 50 := by simpa using hlen
  have hlenrev : ((rest.map fun x => stampCalculation x.1 x.2).reverse).length = 50 := by
    simp [hrest]
  have htake : (((c :: rest).map fun x => stampCalculation x.1 x.2).reverse).take 50
      = (rest.map fun x => stampCalculation x.1 x.2).reverse := by
    rw [List.map_cons, List.reverse_cons, ← hlenrev, List.take_left]
  refine ⟨fun c2 now s2 => rfl, ?_, ?_⟩
  · rw [hmain, htake]
    simp
  · rw [hmain, htake, hlenrev]

/-- A fixed calculation input used by the C4 witness. -/
def sampleCall : CalculationInput :=
  { itemId := "1", itemName := "Rice", mode := "price", input := 100, result := 2, perKgPrice := 75.5 }

/-- 51 record calls with distinct clock readings. -/
def calls51 : List (CalculationInput × Nat) :=
  (List.range 51).map fun n => (sampleCall, n)

/-- Claim C4 witness: 51 concrete records leave exactly 50 entries. -/
theorem saveCalculation_cap_c4_witness :
    (getCalculations (recordAll calls51 emptyStore)).length = 50 :=
  (saveCalculation_cap_c4 calls51 emptyStore (by simp [calls51]) rfl).2.2

/-! ### Recency list invariants (C5) -/

/-- Unfolding one step of `touchAll`. -/
theorem touchAll_cons (i : String) (ids : List String) (s : Store) :
    touchAll (i :: ids) s = touchAll ids (addRecentItem i 0 s) := rfl

/-- Touching a sequence of fresh, pairwise-distinct ids: the recency list
is the reversed sequence in front of the old list, capped at 5. -/
theorem touchAll_recency (ids : List String) :
    ∀ s : Store, ids.Nodup → (∀ i ∈ ids, i ∉ getRecentItems s) →
      (getRecentItems s).length ≤ 5 →
      getRecentItems (touchAll ids s) = (ids.reverse ++ getRecentItems s).take 5 := by
  induction ids with
  | nil =>
    intro s _ _ hlen
    simp [touchAll, List.take_of_length_le hlen]
  | cons i ids ih =>
    intro s hnd hni hlen
    rw [touchAll_cons]
    have hstep := getRecentItems_addRecentItem i 0 s
    have hiold : i ∉ getRecentItems s := hni i (List.mem_cons_self i ids)
    rw [filter_ne_of_not_mem hiold] at hstep
    have hnd' : ids.Nodup := (List.nodup_cons.mp hnd).2
    have hini : i ∉ ids := (List.nodup_cons.mp hnd).1
    have hni' : ∀ j ∈ ids, j ∉ getRecentItems (addRecentItem i 0 s) := by
      intro j hj hjmem
      rw [hstep] at hjmem
      have hsub := List.take_subset maxRecentItems (i :: getRecentItems s) hjmem
      rcases List.mem_cons.mp hsub with h1 | h2
      · exact hini (h1 ▸ hj)
      · exact hni j (List.mem_cons_of_mem i hj) h2
    have hlen' : (getRecentItems (addRecentItem i 0 s)).length ≤ 5 := by
      rw [hstep]
      simp only [maxRecentItems, List.length_take]
      omega
    rw [ih _ hnd' hni' hlen', hstep]
    have h1 : (i :: getRecentItems s).take maxRecentItems
        = (i :: getRecentItems s).take 5 := rfl
    rw [h1, take_append_take_str _ _ (le_refl 5)]
    simp [List.append_assoc]

/-- Claim C5: the recency list invariant.  Touching any id on a
duplicate-free list of at most 5 ids yields a duplicate-free list of at
most 5 ids with the touched id in front, and touching an id already
present does not grow the list.  Touching 6 distinct ids starting from the
empty store leaves exactly the last 5, most recent first, excluding the
first (least recently touched) id. -/
theorem recency_invariant_c5 :
    (∀ (s : Store) (itemId : String) (now : Nat),
      (getRecentItems s).Nodup → (getRecentItems s).length ≤ 5 →
      ((getRecentItems (addRecentItem itemId now s)).Nodup ∧
       (getRecentItems (addRecentItem itemId now s)).length ≤ 5 ∧
       (getRecentItems (addRecentItem itemId now s)).head? = some itemId ∧
       (itemId ∈ getRecentItems s →
         (getRecentItems (addRecentItem itemId now s)).length = (getRecentItems s).length))) ∧
    (∀ ids : List String, ids.length = 6 → ids.Nodup →
      getRecentItems (touchAll ids emptyStore) = (ids.drop 1).reverse ∧
      ∀ x, ids.head? = some x → x ∉ getRecentItems (touchAll ids emptyStore)) := by
  constructor
  · intro s itemId now hnd hlen
    have hstep := getRecentItems_addRecentItem itemId now s
    have hcons : (itemId :: (getRecentItems s).filter fun id => id ≠ itemId).Nodup :=
      List.nodup_cons.mpr ⟨not_mem_filter_ne _ _, hnd.filter _⟩
    refine ⟨?_, ?_, ?_, ?_⟩
    · rw [hstep]
      exact (List.take_sublist _ _).nodup hcons
    · rw [hstep]
      simp only [maxRecentItems, List.length_take]
      omega
    · rw [hstep]
      rfl
    · intro hm
      rw [hstep]
      have hpos : 1 ≤ (getRecentItems s).length :=
        List.length_pos.mpr (List.ne_nil_of_mem hm)
      simp only [maxRecentItems, List.length_take, List.length_cons,
        length_filter_ne_of_mem hnd hm]
      omega
  · intro ids h6 hnd
    have hempty5 : getRecentItems emptyStore = [] := rfl
    have hrec := touchAll_recency ids emptyStore hnd
      (by intro i _ hmem; rw [hempty5] at hmem; cases hmem) (by rw [hempty5]; simp)
    rw [hempty5, List.append_nil] at hrec
    obtain ⟨x0, rest, rfl⟩ : ∃ x0 rest, ids = x0 :: rest := by
      cases ids with
      | nil => simp at h6
      | cons a b => exact ⟨a, b, rfl⟩
    have hrest : rest.length = 5 := by simpa using h6
    have hlenrev : rest.reverse.length = 5 := by simp [hrest]
    have htake : ((x0 :: rest).reverse).take 5 = rest.reverse := by
      rw [List.reverse_cons, ← hlenrev, List.take_left]
    rw [hrec, htake]
    refine ⟨by simp, ?_⟩
    intro x hx hmem
    have hx0 : x = x0 := by
      have := by simpa using hx
      exact this.symm
    subst hx0
    exact (List.nodup_cons.mp hnd).1 (List.mem_reverse.mp hmem)

/-- Claim C5 witness: six distinct touches on the empty store keep the last
five, and a touch puts its id in front. -/
theorem recency_invariant_c5_witness :
    getRecentItems (touchAll ["1", "2", "3", "4", "5", "6"] emptyStore)
      = (["1", "2", "3", "4", "5", "6"].drop 1).reverse ∧
    (getRecentItems (addRecentItem "7" 0 emptyStore)).head? = some "7" :=
  ⟨(recency_invariant_c5.2 ["1", "2", "3", "4", "5", "6"] (by decide) (by decide)).1,
   (recency_invariant_c5.1 emptyStore "7" 0 (by decide) (by decide)).2.2.1⟩

/-! ### Id preservation (C9) -/

/-- An `updateItem` whose update object carries no `id` field leaves the
ids of the collection untouched, position by position. -/
theorem updateItem_ids (id0 : String) (u : ItemUpdates) (hu : u.id = none) (s : Store) :
    (getItems (updateItem id0 u s)).1.map Item.id = (getItems s).1.map Item.id := by
  rw [getItems_updateItem, List.map_map]
  apply List.map_congr_left
  intro a _
  by_cases hid : a.id = id0
  · simp [Function.comp_def, hid, mergeItem, hu]
  · simp [Function.comp_def, hid]

/-- Claim C9 (counterexample): the claim says no store operation can change
an existing item's id, but `update` spreads the whole partial — including
an `id` field, which `Partial Item` legally contains.  Updating item "1"
with `\x7b id: "99" \x7d` rewrites its id. -/
theorem updateItem_id_c9_counterexample :
    ((getItems (updateItem "1" idPatch sampleStore)).1.map Item.id) = ["99"] ∧
    ((getItems sampleStore).1.map Item.id) = ["1"] :=
  ⟨rfl, rfl⟩

/-- Claim C9 (amended): every store operation that does not itself supply a
new id preserves the id of each item — `update` with an id-free partial,
`toggleFavorite`, the recency touch, and migration all keep ids; but
`update` applied with a partial that carries an `id` field may change it. -/
theorem id_preserved_c9 (s : Store) (id0 : String) (u : ItemUpdates) (hu : u.id = none)
    (itemId : String) (now : Nat) (r : RawItem) :
    (getItems (updateItem id0 u s)).1.map Item.id = (getItems s).1.map Item.id ∧
    (getItems (toggleFavorite id0 s)).1.map Item.id = (getItems s).1.map Item.id ∧
    (getItems (addRecentItem itemId now s)).1.map Item.id = (getItems s).1.map Item.id ∧
    (migrateItem r).id = r.id := by
  refine ⟨updateItem_ids id0 u hu s, ?_, ?_, rfl⟩
  · unfold toggleFavorite
    cases hf : (getItems s).1.find? (fun i => i.id = id0) with
    | none =>
      simp only [hf]
      rw [show getItems ((getItems s).2) = getItems s from getItems_getItems s]
    | some it =>
      simp only [hf]
      rw [updateItem_ids id0 _ rfl ((getItems s).2),
        show getItems ((getItems s).2) = getItems s from getItems_getItems s]
  · unfold addRecentItem
    rw [updateItem_ids itemId _ rfl _]
    exact congrArg (List.map Item.id) (getItems_fst_set_recent s _)

/-- Claim C9 witness: id-free operations on a concrete store keep the ids. -/
theorem id_preserved_c9_witness :
    (getItems (toggleFavorite "1" sampleStore)).1.map Item.id
      = (getItems sampleStore).1.map Item.id ∧
    (getItems (updateItem "1" samplePatch sampleStore)).1.map Item.id
      = (getItems sampleStore).1.map Item.id :=
  ⟨(id_preserved_c9 sampleStore "1" samplePatch rfl "1" 0 plainRawItem).2.1,
   (id_preserved_c9 sampleStore "1" samplePatch rfl "1" 0 plainRawItem).1⟩

/-! ### Recency resolution (C10) -/

/-- The resolution loop is exactly a `filterMap` through `find?`. -/
theorem resolveLoop_eq_filterMap (allItems : List Item) (ids : List String) :
    resolveLoop allItems ids = ids.filterMap fun i => allItems.find? fun it => it.id = i := by
  induction ids with
  | nil => rfl
  | cons i rest ih =>
    rw [List.filterMap_cons]
    unfold resolveLoop
    cases hf : allItems.find? (fun it => it.id = i) <;> simp [hf, ih]

/-- Everything the resolution loop returns comes from the item collection. -/
theorem mem_resolveLoop {allItems : List Item} {ids : List String} {it : Item}
    (h : it ∈ resolveLoop allItems ids) : it ∈ allItems := by
  induction ids with
  | nil => cases h
  | cons i rest ih =>
    unfold resolveLoop at h
    cases hf : allItems.find? (fun x => x.id = i) with
    | none =>
      rw [hf] at h
      exact ih h
    | some a =>
      rw [hf] at h
      rcases List.mem_cons.mp h with h1 | h2
      · exact h1 ▸ List.mem_of_find?_eq_some hf
      · exact ih h2

/-- The collection read back after a delete is the old collection with the
matching item filtered out. -/
theorem getItems_deleteItem (id : String) (s : Store) :
    (getItems (deleteItem id s)).1 = (getItems s).1.filter fun it => it.id ≠ id := by
  unfold deleteItem
  simp [getItems_saveItems]

/-- `deleteItem` leaves the recency document untouched. -/
theorem getRecentItems_deleteItem (id : String) (s : Store) :
    getRecentItems (deleteItem id s) = getRecentItems s := by
  unfold deleteItem getRecentItems
  rw [recentDoc_saveItems, recentDoc_getItems]

/-- Claim C10: `getRecentItemsWithData` maps the stored recency ids through
the current item collection in recency order, silently dropping every id
whose item no longer exists; in particular, after deleting an item whose id
is in the recency list, resolution never returns an item with that id (and
being a total function, never raises). -/
theorem resolve_c10 (s : Store) (deletedId : String)
    (hmem : deletedId ∈ getRecentItems s) :
    ((getRecentItemsWithData s).1
        = (getRecentItems s).filterMap fun i => (getItems s).1.find? fun it => it.id = i) ∧
    getRecentItems (deleteItem deletedId s) = getRecentItems s ∧
    (∀ it ∈ (getRecentItemsWithData (deleteItem deletedId s)).1, it.id ≠ deletedId) := by
  refine ⟨?_, getRecentItems_deleteItem deletedId s, ?_⟩
  · show resolveLoop (getItems s).1 (getRecentItems s) = _
    rw [resolveLoop_eq_filterMap]
  · intro it hit
    have hit2 : it ∈ resolveLoop (getItems (deleteItem deletedId s)).1
        (getRecentItems (deleteItem deletedId s)) := hit
    have h1 : it ∈ (getItems (deleteItem deletedId s)).1 := mem_resolveLoop hit2
    rw [getItems_deleteItem] at h1
    have h2 := List.of_mem_filter h1
    simpa using h2

/-- A store with two items, both in the recency list. -/
def recStore : Store where
  itemsDoc := some
    [{ id := "1", name := "Rice", pricePerKg := 75.5, isFavorite := some true, category := some "groceries", lastUsed := none },
     { id := "2", name := "Sugar", pricePerKg := 55.2, isFavorite := some false, category := some "groceries", lastUsed := none }]
  calcsDoc := none
  recentDoc := some ["2", "1"]

/-- Claim C10 witness: resolution on a concrete store, before and after
deleting a recency-listed item. -/
theorem resolve_c10_witness :
    ((getRecentItemsWithData recStore).1
        = (getRecentItems recStore).filterMap fun i => (getItems recStore).1.find? fun it => it.id = i) ∧
    getRecentItems (deleteItem "1" recStore) = getRecentItems recStore :=
  ⟨(resolve_c10 recStore "1" (by decide)).1, (resolve_c10 recStore "1" (by decide)).2.1⟩

end PriceCalc
